import Mathlib

/-!
Shallow embedding of the content-diffing core of `src/app.py`:
`normalize_text`, `extract_meaningful_text` and the set-based
`find_significant_changes`, together with a model of Python's
`difflib.SequenceMatcher.ratio` as the source uses it (`isjunk=None`,
`autojunk=True`).  Text is modelled at the level of code-point lists with
ASCII character classes (the inputs of interest are ASCII); the float
comparisons of the source are modelled as exact rational comparisons, which
agree with the float ones at the magnitudes any realistic text reaches.
-/

namespace StyleChecker

/-- One ContentBlock: a `(tag_type, text_content)` pair as produced by
`extract_meaningful_text`. -/
structure Block where
  tag : String
  text : String
deriving DecidableEq

/-- ASCII model of Python's regex class `\w` (letter, digit or underscore). -/
def isWordChar (c : Char) : Bool := c.isAlphanum || c == '_'

/-- ASCII model of Python's regex class `\s`. -/
def isSpaceChar (c : Char) : Bool :=
  c == ' ' || c == '\t' || c == '\n' || c == '\r' || c == '\x0b' || c == '\x0c'

/-- ASCII model of Python's regex class `\d`. -/
def isDigitChar (c : Char) : Bool := c.isDigit

/-- Python `str.lower` (ASCII model). -/
def pyLower (s : String) : String := String.mk (s.data.map Char.toLower)

/-- Python `str.upper` (ASCII model). -/
def pyUpper (s : String) : String := String.mk (s.data.map Char.toUpper)

/-- Python slicing `s[:n]`, by code points. -/
def takeChars (n : Nat) (s : String) : String := String.mk (s.data.take n)

/-- Python `str.strip`: drop whitespace at both ends. -/
def stripText (s : String) : String :=
  String.mk (((s.data.dropWhile isSpaceChar).reverse.dropWhile isSpaceChar).reverse)

/-- Substitution of `[^\w\s]` by the empty string: keep word and space
characters only. -/
def removeNonWordSpace (s : String) : String :=
  String.mk (s.data.filter (fun c => isWordChar c || isSpaceChar c))

/-- Substitution of `\s+` by the empty string: drop all whitespace. -/
def removeSpaces (s : String) : String :=
  String.mk (s.data.filter (fun c => !isSpaceChar c))

/-- Model of `normalize_text` (src/app.py lines 86-102): the empty-input guard,
then lowercase, strip punctuation, strip whitespace. -/
def normalize_text (text : String) : String :=
  if text = "" then "" else removeSpaces (removeNonWordSpace (pyLower text))

/-- Test of `re.match(r'^[\d\W]+$', text)`: the nonempty text consists only of
digits and non-word characters.  The text it is applied to has been stripped,
so the before-trailing-newline subtlety of `$` cannot arise. -/
def onlyDigitsNonWord (s : String) : Bool :=
  !s.data.isEmpty && s.data.all (fun c => isDigitChar c || !isWordChar c)

/-- Model of `extract_meaningful_text` (src/app.py lines 57-84) at the
block-filter level.  The HTML parsing and the `get_text()` flattening are done
by an external library (BeautifulSoup); the model receives the
`(tag_name, text)` candidates the significant-tag scan yields, in scan order,
and applies the source's strip-and-filter logic of lines 76-84. -/
def extract_meaningful_text (candidates : List Block) : List Block :=
  candidates.flatMap (fun b =>
    let text := stripText b.text
    if 10 < text.length && !onlyDigitsNonWord text then [⟨b.tag, text⟩] else [])

/-!  Model of `difflib.SequenceMatcher` as called by the source:
`SequenceMatcher(None, a, b).ratio()`.  -/

/-- Ascending occurrence indices of one element of `b`, starting at index `j`.
`__chain_b` stores these lists in a dict keyed by element; querying that dict
at `c` gives exactly this list, so the embedding computes it per query. -/
def idxsIn (c : Char) : Nat → List Char → List Nat
  | _, [] => []
  | j, x :: xs => if x = c then j :: idxsIn c (j + 1) xs else idxsIn c (j + 1) xs

/-- The `b2j` query with the autojunk rule of `__chain_b` (`isjunk=None`,
`autojunk=True`): when `len(b) >= 200`, an element occurring more than
`len(b) // 100 + 1` times is popular and is dropped from `b2j`, so its query
yields the empty list. -/
def b2jQuery (b : List Char) (c : Char) : List Nat :=
  let idxs := idxsIn c 0 b
  if 200 ≤ b.length ∧ b.length / 100 + 1 < idxs.length then [] else idxs

/-- Inner loop of `find_longest_match` for one `i`: walk the in-window
occurrence indices of `a[i]`, building the new `j2len` row and updating the
best `(besti, bestj, bestsize)` triple.  Run lengths are read from the
previous row `j2len`; at `j = 0` Python reads key `-1`, never present, hence
`0`.  The `continue`/`break` window test of the source is a membership filter
here because the index list is ascending. -/
def flmRows (j2len : List (Nat × Nat)) (blo bhi i : Nat) :
    List Nat → List (Nat × Nat) → Nat → Nat → Nat →
      List (Nat × Nat) × (Nat × Nat × Nat)
  | [], row, bi, bj, bs => (row, (bi, bj, bs))
  | j :: js, row, bi, bj, bs =>
    if blo ≤ j ∧ j < bhi then
      let k := (if j = 0 then 0 else (j2len.lookup (j - 1)).getD 0) + 1
      if bs < k then
        flmRows j2len blo bhi i js ((j, k) :: row) (i + 1 - k) (j + 1 - k) k
      else flmRows j2len blo bhi i js ((j, k) :: row) bi bj bs
    else flmRows j2len blo bhi i js row bi bj bs

/-- Main dynamic-programming scan of `find_longest_match` over
`i in range(alo, ahi)`, carrying the previous `j2len` row and the best
triple. -/
def flmScanAux (a b : List Char) (blo bhi : Nat) :
    List Nat → List (Nat × Nat) → Nat → Nat → Nat → Nat × Nat × Nat
  | [], _, bi, bj, bs => (bi, bj, bs)
  | i :: is, j2len, bi, bj, bs =>
    match a.get? i with
    | none => flmScanAux a b blo bhi is j2len bi bj bs
    | some c =>
      match flmRows j2len blo bhi i (b2jQuery b c) [] bi bj bs with
      | (row, (bi', bj', bs')) => flmScanAux a b blo bhi is row bi' bj' bs'

/-- The best matching block found by the main scan, before the extension
passes. -/
def flmScan (a b : List Char) (alo ahi blo bhi : Nat) : Nat × Nat × Nat :=
  flmScanAux a b blo bhi (List.range' alo (ahi - alo)) [] alo blo 0

/-- Left extension pass of `find_longest_match`: extend the best block while
the preceding characters match.  The fuel is the starting `besti`, which the
loop decrements, so it never runs out before the source loop stops. -/
def extendLeft (a b : List Char) (alo blo : Nat) :
    Nat → Nat → Nat → Nat → Nat × Nat × Nat
  | 0, bi, bj, bs => (bi, bj, bs)
  | fuel + 1, bi, bj, bs =>
    if alo < bi ∧ blo < bj ∧ (a.get? (bi - 1)).isSome ∧
        a.get? (bi - 1) = b.get? (bj - 1)
    then extendLeft a b alo blo fuel (bi - 1) (bj - 1) (bs + 1)
    else (bi, bj, bs)

/-- Right extension pass of `find_longest_match`.  The fuel is the remaining
window width `ahi - (besti + bestsize)`, which the loop consumes one per
step. -/
def extendRight (a b : List Char) (ahi bhi : Nat) :
    Nat → Nat → Nat → Nat → Nat × Nat × Nat
  | 0, bi, bj, bs => (bi, bj, bs)
  | fuel + 1, bi, bj, bs =>
    if bi + bs < ahi ∧ bj + bs < bhi ∧ (a.get? (bi + bs)).isSome ∧
        a.get? (bi + bs) = b.get? (bj + bs)
    then extendRight a b ahi bhi fuel bi bj (bs + 1)
    else (bi, bj, bs)

/-- `find_longest_match` with `isjunk=None`: the main scan followed by the two
non-junk extension passes (the two junk passes are no-ops because `bjunk` is
empty). -/
def find_longest_match (a b : List Char) (alo ahi blo bhi : Nat) :
    Nat × Nat × Nat :=
  match flmScan a b alo ahi blo bhi with
  | (bi, bj, bs) =>
    match extendLeft a b alo blo bi bi bj bs with
    | (bi', bj', bs') => extendRight a b ahi bhi (ahi - (bi' + bs')) bi' bj' bs'

/-- Total matched size over the block-splitting recursion of
`get_matching_blocks` (the sort-and-merge step of the source preserves this
total).  `fuel` bounds the recursion depth; the windows shrink strictly at each
split, so the `la + lb + 1` supplied by `sm_ratio` never runs out. -/
def matchingSum (a b : List Char) :
    Nat → Nat → Nat → Nat → Nat → Nat
  | 0, _, _, _, _ => 0
  | fuel + 1, alo, ahi, blo, bhi =>
    match find_longest_match a b alo ahi blo bhi with
    | (i, j, k) =>
      if k = 0 then 0
      else
        k + (if alo < i ∧ blo < j then matchingSum a b fuel alo i blo j else 0) +
          (if i + k < ahi ∧ j + k < bhi then
            matchingSum a b fuel (i + k) ahi (j + k) bhi else 0)

/-- `SequenceMatcher(None, a, b).ratio()`: `2.0 * matches / (la + lb)`, and
`1.0` when both strings are empty, as an exact rational. -/
def sm_ratio (aStr bStr : String) : ℚ :=
  let a := aStr.data
  let b := bStr.data
  let m := matchingSum a b (a.length + b.length + 1) 0 a.length 0 b.length
  if a.length + b.length = 0 then 1 else mkRat (2 * m) (a.length + b.length)

/-!  The set-based Matcher `find_significant_changes` (src/app.py 104-208). -/

/-- Python-dict insertion for the normalized maps: an existing key has the
block appended to its list, a new key is appended at the end (insertion
order). -/
def insertBlock : List (String × List Block) → String → Block → List (String × List Block)
  | [], key, b => [(key, [b])]
  | (k, bs) :: rest, key, b =>
    if k = key then (k, bs ++ [b]) :: rest else (k, bs) :: insertBlock rest key b

/-- One loop iteration of the map construction of lines 117-125 and 128-136:
normalize the block's text, skip keys of length < 30, insert otherwise. -/
def mapStep (m : List (String × List Block)) (b : Block) : List (String × List Block) :=
  let ultra_normalized := normalize_text b.text
  if ultra_normalized.length < 30 then m else insertBlock m ultra_normalized b

/-- The normalized lookup map of lines 115-136: blocks keyed by
`normalize_text` of their text, skipping keys of length < 30. -/
def buildNormalizedMap (items : List Block) : List (String × List Block) :=
  items.foldl mapStep []

/-- The key list of a normalized map, in insertion order.  Python iterates the
key sets of lines 161-162 in an unspecified order; the embedding fixes
insertion order. -/
def mapKeys (m : List (String × List Block)) : List String := m.map Prod.fst

/-- Report excerpt (lines 145, 154 and 204-205): strong-tagged label plus the
original text, truncated to its first 150 characters plus an ellipsis when
longer than 150. -/
def mkExcerpt (tag text : String) : String :=
  "<strong>" ++ pyUpper tag ++ "</strong>: " ++
    (if 150 < text.length then takeChars 150 text ++ "..." else text)

/-- The length-ratio pre-filter of lines 174-177, `min/max >= 0.75`, written
crosswise over the integer lengths (`0.75 = 3/4` exactly; both keys reaching
this test come from the maps and have length ≥ 30, so `max > 0` and the float
division of the source cannot round across the comparison). -/
def lengthRatioOK (new_norm old_norm : String) : Bool :=
  decide (3 * max new_norm.length old_norm.length ≤
    4 * min new_norm.length old_norm.length)

/-- One candidate step of the best-match loop (lines 173-183). -/
def bmStep (new_norm : String) (st : Option String × ℚ) (old_norm : String) :
    Option String × ℚ :=
  if lengthRatioOK new_norm old_norm = true then
    if st.2 < sm_ratio new_norm old_norm ∧ mkRat 3 4 < sm_ratio new_norm old_norm
    then (some old_norm, sm_ratio new_norm old_norm)
    else st
  else st

/-- The best-fuzzy-match search of lines 169-183 over the old-side keys,
starting from `(None, 0)`. -/
def bestMatch (new_norm : String) (old_norms : List String) : Option String × ℚ :=
  old_norms.foldl (bmStep new_norm) (none, 0)

/-- Word runs: the maximal word-character runs of a character list
(`re.findall(r'\b\w+\b', s)`). -/
def wordRunsAux : List Char → List Char → List String
  | [], cur => if cur.isEmpty then [] else [String.mk cur.reverse]
  | c :: rest, cur =>
    if isWordChar c then wordRunsAux rest (c :: cur)
    else if cur.isEmpty then wordRunsAux rest []
    else String.mk cur.reverse :: wordRunsAux rest []

/-- Word runs of a string. -/
def wordRuns (s : String) : List String := wordRunsAux s.data []

/-- Word set of the secondary verification (lines 191-192):
`set(re.findall(r'\b\w+\b', text.lower()))`. -/
def wordsOf (text : String) : Finset String := (wordRuns (pyLower text)).toFinset

/-- The secondary verification of lines 188-202, on the original texts:
at least 5 changed words and an absolute length difference above 50. -/
def secondaryOK (new_text old_text : String) : Bool :=
  let new_words := wordsOf new_text
  let old_words := wordsOf old_text
  let added_words := new_words \ old_words
  let removed_words := old_words \ new_words
  let word_changes := added_words.card + removed_words.card
  let length_diff := ((new_text.length : ℤ) - (old_text.length : ℤ)).natAbs
  decide (5 ≤ word_changes) && decide (50 < length_diff)

/-- One modified report entry (lines 203-206). -/
structure ModEntry where
  old : String
  new : String
deriving DecidableEq

/-- The modified entries contributed by one new-side key (lines 169-206): run
the best-match search, apply the acceptance gate of line 186 (Python truthiness
of `best_old_norm`: `None` and the empty string are both falsy), and emit one
entry per block pair passing the secondary verification. -/
def modifiedForKey (old_normalized_map new_normalized_map : List (String × List Block))
    (new_norm : String) (old_norms : List String) : List ModEntry :=
  if (bestMatch new_norm old_norms).1.getD "" ≠ "" ∧
      mkRat 3 4 < (bestMatch new_norm old_norms).2 ∧
      (bestMatch new_norm old_norms).2 < mkRat 9 10 then
    ((new_normalized_map.lookup new_norm).getD []).flatMap (fun nb =>
      ((old_normalized_map.lookup ((bestMatch new_norm old_norms).1.getD "")).getD
          []).flatMap (fun ob =>
        if secondaryOK nb.text ob.text = true then
          [{ old := mkExcerpt ob.tag ob.text, new := mkExcerpt nb.tag nb.text }]
        else []))
  else []

/-- The change report. -/
structure ChangeReport where
  added : List String
  removed : List String
  modified : List ModEntry
deriving DecidableEq

/-- Model of the set-based `find_significant_changes` (src/app.py lines
104-208).  The `similarity_threshold` parameter is kept because the source
declares it. -/
def find_significant_changes (old_items new_items : List Block)
    (similarity_threshold : ℚ := mkRat 7 10) : ChangeReport :=
  let old_normalized_map := buildNormalizedMap old_items
  let new_normalized_map := buildNormalizedMap new_items
  let oldKeys := mapKeys old_normalized_map
  let newKeys := mapKeys new_normalized_map
  let added := new_normalized_map.flatMap (fun p =>
    if !(oldKeys.contains p.1) && decide (50 < p.1.length) then
      p.2.map (fun b => mkExcerpt b.tag b.text)
    else [])
  let removed := old_normalized_map.flatMap (fun p =>
    if !(newKeys.contains p.1) && decide (50 < p.1.length) then
      p.2.map (fun b => mkExcerpt b.tag b.text)
    else [])
  let modified := (newKeys.filter (fun k => !(oldKeys.contains k))).flatMap
    (fun new_norm => modifiedForKey old_normalized_map new_normalized_map
      new_norm oldKeys)
  { added := added, removed := removed, modified := modified }

/-!  Auxiliary predicates and the spec-side reformulation used by the
verification below. -/

/-- Invariant of the normalized maps: every entry has a key of length at least
30, and holds only blocks drawn from the source list whose normalized text is
exactly the key. -/
def GoodMap (S : List Block) (m : List (String × List Block)) : Prop :=
  ∀ p ∈ m, 30 ≤ p.1.length ∧ ∀ x ∈ p.2, x ∈ S ∧ normalize_text x.text = p.1

/-- Invariant of the best-match fold of lines 169-183: a selected candidate is
a processed key that passed the length-ratio filter and carries its own
similarity, strictly above 3/4; and every processed candidate passing the
filter has similarity bounded by the carried best or by 3/4. -/
def BMInv (new_norm : String) (ks : List String) (st : Option String × ℚ) : Prop :=
  (∀ k, st.1 = some k → k ∈ ks ∧ lengthRatioOK new_norm k = true ∧
    st.2 = sm_ratio new_norm k ∧ mkRat 3 4 < st.2) ∧
  (∀ k' ∈ ks, lengthRatioOK new_norm k' = true →
    sm_ratio new_norm k' ≤ st.2 ∨ sm_ratio new_norm k' ≤ mkRat 3 4)

/-- Spec-side wording of the secondary verification: the cardinality of the
symmetric difference of the case-folded word sets is at least 5, and the
absolute character-length difference is strictly greater than 50. -/
def specWordChangeCheck (new_text old_text : String) : Bool :=
  decide (5 ≤ (symmDiff (wordsOf new_text) (wordsOf old_text)).card) &&
  decide ((50 : ℤ) < |(new_text.length : ℤ) - (old_text.length : ℤ)|)

/-!  Unfolding equations for the components of the report. -/

lemma fsc_added_eq (old_items new_items : List Block) (t : ℚ) :
    (find_significant_changes old_items new_items t).added =
      (buildNormalizedMap new_items).flatMap (fun p =>
        if !((mapKeys (buildNormalizedMap old_items)).contains p.1) &&
            decide (50 < p.1.length) then
          p.2.map (fun b => mkExcerpt b.tag b.text)
        else []) := rfl

lemma fsc_removed_eq (old_items new_items : List Block) (t : ℚ) :
    (find_significant_changes old_items new_items t).removed =
      (buildNormalizedMap old_items).flatMap (fun p =>
        if !((mapKeys (buildNormalizedMap new_items)).contains p.1) &&
            decide (50 < p.1.length) then
          p.2.map (fun b => mkExcerpt b.tag b.text)
        else []) := rfl

lemma fsc_modified_eq (old_items new_items : List Block) (t : ℚ) :
    (find_significant_changes old_items new_items t).modified =
      ((mapKeys (buildNormalizedMap new_items)).filter
          (fun k => !((mapKeys (buildNormalizedMap old_items)).contains k))).flatMap
        (fun new_norm => modifiedForKey (buildNormalizedMap old_items)
          (buildNormalizedMap new_items) new_norm
          (mapKeys (buildNormalizedMap old_items))) := rfl

/-!  Invariants of the normalized maps. -/

lemma insertBlock_cons_self (key : String) (bs' : List Block)
    (rest : List (String × List Block)) (b : Block) :
    insertBlock ((key, bs') :: rest) key b = (key, bs' ++ [b]) :: rest := by
  simp [insertBlock]

lemma insertBlock_cons_ne {k' key : String} (h : k' ≠ key) (bs' : List Block)
    (rest : List (String × List Block)) (b : Block) :
    insertBlock ((k', bs') :: rest) key b = (k', bs') :: insertBlock rest key b := by
  simp [insertBlock, h]

lemma goodMap_insertBlock {S : List Block} {key : String} {b : Block}
    (hb : b ∈ S) (hk : normalize_text b.text = key) (hlen : 30 ≤ key.length) :
    ∀ m : List (String × List Block), GoodMap S m → GoodMap S (insertBlock m key b) := by
  intro m
  induction m with
  | nil =>
    intro _ p hp
    simp only [insertBlock, List.mem_singleton] at hp
    subst hp
    refine ⟨hlen, ?_⟩
    intro x hx
    simp only [List.mem_singleton] at hx
    subst hx
    exact ⟨hb, hk⟩
  | cons q rest ih =>
    intro h p hp
    obtain ⟨k', bs'⟩ := q
    have hhead := h (k', bs') (List.mem_cons_self _ _)
    have htail : GoodMap S rest := fun r hr => h r (List.mem_cons_of_mem _ hr)
    by_cases hkey : k' = key
    · subst hkey
      rw [insertBlock_cons_self, List.mem_cons] at hp
      rcases hp with hp | hp
      · subst hp
        refine ⟨hhead.1, ?_⟩
        intro x hx
        rcases List.mem_append.mp hx with hx | hx
        · exact hhead.2 x hx
        · simp only [List.mem_singleton] at hx
          subst hx
          exact ⟨hb, hk⟩
      · exact htail p hp
    · rw [insertBlock_cons_ne hkey, List.mem_cons] at hp
      rcases hp with hp | hp
      · subst hp
        exact hhead
      · exact ih htail p hp

lemma goodMap_mapStep {S : List Block} {m : List (String × List Block)} {b : Block}
    (h : GoodMap S m) (hb : b ∈ S) : GoodMap S (mapStep m b) := by
  unfold mapStep
  by_cases hc : (normalize_text b.text).length < 30
  · simpa [hc] using h
  · simp only [if_neg hc]
    exact goodMap_insertBlock hb rfl (Nat.le_of_not_lt hc) m h

lemma goodMap_foldl {S : List Block} :
    ∀ (l : List Block) (m : List (String × List Block)),
      (∀ x ∈ l, x ∈ S) → GoodMap S m → GoodMap S (l.foldl mapStep m) := by
  intro l
  induction l with
  | nil => intro m _ hm; simpa using hm
  | cons b rest ih =>
    intro m hl hm
    rw [List.foldl_cons]
    exact ih _ (fun x hx => hl x (List.mem_cons_of_mem _ hx))
      (goodMap_mapStep hm (hl b (List.mem_cons_self _ _)))

lemma goodMap_build (items : List Block) : GoodMap items (buildNormalizedMap items) :=
  goodMap_foldl items [] (fun _ hx => hx) (fun p hp => absurd hp (List.not_mem_nil p))

lemma mem_mapKeys_iff {m : List (String × List Block)} {k : String} :
    k ∈ mapKeys m ↔ ∃ bs, (k, bs) ∈ m := by
  simp only [mapKeys, List.mem_map]
  constructor
  · rintro ⟨p, hp, rfl⟩
    exact ⟨p.2, by simpa using hp⟩
  · rintro ⟨bs, h⟩
    exact ⟨(k, bs), h, rfl⟩

lemma mapKeys_length {items : List Block} {k : String}
    (h : k ∈ mapKeys (buildNormalizedMap items)) : 30 ≤ k.length := by
  obtain ⟨bs, hb⟩ := mem_mapKeys_iff.mp h
  exact (goodMap_build items _ hb).1

lemma contains_iff {l : List String} {s : String} : l.contains s = true ↔ s ∈ l := by
  simp [List.contains, List.elem_iff]

lemma mem_of_lookup_eq_some {m : List (String × List Block)} {k : String}
    {bs : List Block} (h : m.lookup k = some bs) : (k, bs) ∈ m := by
  induction m with
  | nil => simp [List.lookup] at h
  | cons q rest ih =>
    obtain ⟨k', bs'⟩ := q
    simp only [List.lookup] at h
    by_cases hk : (k == k') = true
    · rw [hk] at h
      simp only [Option.some.injEq] at h
      have hke : k = k' := by simpa using hk
      subst hke
      subst h
      exact List.mem_cons_self _ _
    · have hkf : (k == k') = false := by simpa using hk
      rw [hkf] at h
      exact List.mem_cons_of_mem _ (ih h)

lemma lookup_blocks_src {items : List Block} {key : String} {x : Block}
    (hx : x ∈ ((buildNormalizedMap items).lookup key).getD []) :
    x ∈ items ∧ normalize_text x.text = key ∧ 30 ≤ key.length := by
  cases hl : (buildNormalizedMap items).lookup key with
  | none => rw [hl] at hx; exact absurd hx (List.not_mem_nil x)
  | some bs =>
    rw [hl] at hx
    simp only [Option.getD_some] at hx
    have hg := goodMap_build items _ (mem_of_lookup_eq_some hl)
    exact ⟨(hg.2 x hx).1, (hg.2 x hx).2, hg.1⟩

lemma mem_modifiedForKey {om nm : List (String × List Block)} {nn : String}
    {oks : List String} {m : ModEntry} (h : m ∈ modifiedForKey om nm nn oks) :
    ∃ nb ∈ (nm.lookup nn).getD [],
      ∃ ob ∈ (om.lookup ((bestMatch nn oks).1.getD "")).getD [],
        m = ⟨mkExcerpt ob.tag ob.text, mkExcerpt nb.tag nb.text⟩ ∧
          secondaryOK nb.text ob.text = true := by
  unfold modifiedForKey at h
  by_cases hc : (bestMatch nn oks).1.getD "" ≠ "" ∧
      mkRat 3 4 < (bestMatch nn oks).2 ∧ (bestMatch nn oks).2 < mkRat 9 10
  · rw [if_pos hc] at h
    obtain ⟨nb, hnb, h2⟩ := List.mem_flatMap.mp h
    obtain ⟨ob, hob, h3⟩ := List.mem_flatMap.mp h2
    by_cases hs : secondaryOK nb.text ob.text = true
    · rw [if_pos hs] at h3
      simp only [List.mem_singleton] at h3
      exact ⟨nb, hnb, ob, hob, h3, hs⟩
    · rw [if_neg hs] at h3
      exact absurd h3 (List.not_mem_nil m)
  · rw [if_neg hc] at h
    exact absurd h (List.not_mem_nil m)

lemma report_added_src {old_items new_items : List Block} {t : ℚ} {e : String}
    (he : e ∈ (find_significant_changes old_items new_items t).added) :
    ∃ b ∈ new_items, e = mkExcerpt b.tag b.text ∧
      30 ≤ (normalize_text b.text).length := by
  rw [fsc_added_eq] at he
  obtain ⟨p, hp, he2⟩ := List.mem_flatMap.mp he
  by_cases hc : (!((mapKeys (buildNormalizedMap old_items)).contains p.1) &&
      decide (50 < p.1.length)) = true
  · rw [if_pos hc] at he2
    obtain ⟨b, hb, hbe⟩ := List.mem_map.mp he2
    have hg := goodMap_build new_items _ hp
    have hb2 := hg.2 b hb
    exact ⟨b, hb2.1, hbe.symm, by rw [hb2.2]; exact hg.1⟩
  · rw [if_neg hc] at he2
    exact absurd he2 (List.not_mem_nil e)

lemma report_removed_src {old_items new_items : List Block} {t : ℚ} {e : String}
    (he : e ∈ (find_significant_changes old_items new_items t).removed) :
    ∃ b ∈ old_items, e = mkExcerpt b.tag b.text ∧
      30 ≤ (normalize_text b.text).length := by
  rw [fsc_removed_eq] at he
  obtain ⟨p, hp, he2⟩ := List.mem_flatMap.mp he
  by_cases hc : (!((mapKeys (buildNormalizedMap new_items)).contains p.1) &&
      decide (50 < p.1.length)) = true
  · rw [if_pos hc] at he2
    obtain ⟨b, hb, hbe⟩ := List.mem_map.mp he2
    have hg := goodMap_build old_items _ hp
    have hb2 := hg.2 b hb
    exact ⟨b, hb2.1, hbe.symm, by rw [hb2.2]; exact hg.1⟩
  · rw [if_neg hc] at he2
    exact absurd he2 (List.not_mem_nil e)

lemma report_modified_src {old_items new_items : List Block} {t : ℚ} {m : ModEntry}
    (hm : m ∈ (find_significant_changes old_items new_items t).modified) :
    (∃ b ∈ old_items, m.old = mkExcerpt b.tag b.text ∧
      30 ≤ (normalize_text b.text).length) ∧
    (∃ b ∈ new_items, m.new = mkExcerpt b.tag b.text ∧
      30 ≤ (normalize_text b.text).length) := by
  rw [fsc_modified_eq] at hm
  obtain ⟨nn, _, hm2⟩ := List.mem_flatMap.mp hm
  obtain ⟨nb, hnb, ob, hob, hmeq, _⟩ := mem_modifiedForKey hm2
  obtain ⟨hnb1, hnb2, hnb3⟩ := lookup_blocks_src hnb
  obtain ⟨hob1, hob2, hob3⟩ := lookup_blocks_src hob
  subst hmeq
  constructor
  · exact ⟨ob, hob1, rfl, by rw [hob2]; exact hob3⟩
  · exact ⟨nb, hnb1, rfl, by rw [hnb2]; exact hnb3⟩

/-!  The claims. -/

/-- C9: the set-based Matcher's output is independent of the
`similarity_threshold` parameter: the fixed constants alone gate the
classification, so any two threshold values give the same report. -/
theorem C9_threshold_independent (old_items new_items : List Block) (t1 t2 : ℚ) :
    find_significant_changes old_items new_items t1 =
      find_significant_changes old_items new_items t2 := rfl

/-- C10: every normalized key stored in either lookup map has length at least
30, so the denominator `max(len(new_norm), len(old_norm))` of the length-ratio
pre-filter is strictly positive for every compared key pair and the division
is always defined. -/
theorem C10_length_ratio_no_div_zero (old_items new_items : List Block)
    (kNew kOld : String)
    (hn : kNew ∈ mapKeys (buildNormalizedMap new_items))
    (ho : kOld ∈ mapKeys (buildNormalizedMap old_items)) :
    30 ≤ kNew.length ∧ 30 ≤ kOld.length ∧ 0 < max kNew.length kOld.length := by
  have h1 := mapKeys_length hn
  have h2 := mapKeys_length ho
  exact ⟨h1, h2, lt_of_lt_of_le (by norm_num)
    (le_trans h1 (le_max_left _ _))⟩

/-- C10 witness: the two keys of a one-block-per-side comparison have length
at least 30 and a positive maximum length. -/
theorem C10_witness :
    ("abcdefghijklmnopqrstuvwxyzabcdefghijklmnopqrstuvwxyz") ∈
      mapKeys (buildNormalizedMap
        [⟨"p", "abcdefghijklmnopqrstuvwxyz abcdefghijklmnopqrstuvwxyz"⟩]) ∧
    ("zyxwvutsrqponmlkjihgfedcbazyxwvutsrqponmlkjihgfedcba") ∈
      mapKeys (buildNormalizedMap
        [⟨"p", "zyxwvutsrqponmlkjihgfedcba zyxwvutsrqponmlkjihgfedcba"⟩]) ∧
    (30 ≤ ("abcdefghijklmnopqrstuvwxyzabcdefghijklmnopqrstuvwxyz").length ∧
      30 ≤ ("zyxwvutsrqponmlkjihgfedcbazyxwvutsrqponmlkjihgfedcba").length ∧
      0 < max ("abcdefghijklmnopqrstuvwxyzabcdefghijklmnopqrstuvwxyz").length
        ("zyxwvutsrqponmlkjihgfedcbazyxwvutsrqponmlkjihgfedcba").length) :=
  ⟨by decide, by decide,
    C10_length_ratio_no_div_zero
      [⟨"p", "zyxwvutsrqponmlkjihgfedcba zyxwvutsrqponmlkjihgfedcba"⟩]
      [⟨"p", "abcdefghijklmnopqrstuvwxyz abcdefghijklmnopqrstuvwxyz"⟩]
      ("abcdefghijklmnopqrstuvwxyzabcdefghijklmnopqrstuvwxyz")
      ("zyxwvutsrqponmlkjihgfedcbazyxwvutsrqponmlkjihgfedcba")
      (by decide) (by decide)⟩

/-- C6: comparing any block list with itself yields the empty report: no
added, removed or modified entries. -/
theorem C6_match_self_empty (X : List Block) (t : ℚ) :
    find_significant_changes X X t =
      { added := [], removed := [], modified := [] } := by
  have hkeys : ∀ p ∈ buildNormalizedMap X,
      (mapKeys (buildNormalizedMap X)).contains p.1 = true := by
    intro p hp
    exact contains_iff.mpr (mem_mapKeys_iff.mpr ⟨p.2, by simpa using hp⟩)
  have hside : (buildNormalizedMap X).flatMap (fun p =>
      if !((mapKeys (buildNormalizedMap X)).contains p.1) &&
          decide (50 < p.1.length) then
        p.2.map (fun b => mkExcerpt b.tag b.text)
      else []) = [] := by
    rw [List.flatMap_eq_nil_iff]
    intro p hp
    rw [hkeys p hp]
    rfl
  have hfilter : (mapKeys (buildNormalizedMap X)).filter
      (fun k => !((mapKeys (buildNormalizedMap X)).contains k)) = [] := by
    rw [List.filter_eq_nil_iff]
    intro k hk
    rw [contains_iff.mpr hk]
    simp
  have h1 := fsc_added_eq X X t
  have h2 := fsc_removed_eq X X t
  have h3 := fsc_modified_eq X X t
  rw [hside] at h1 h2
  rw [hfilter] at h3
  simp only [List.flatMap_nil] at h3
  cases hrep : find_significant_changes X X t with
  | mk a r m =>
    rw [hrep] at h1 h2 h3
    simp only at h1 h2 h3
    rw [h1, h2, h3]

/-- C4: a block whose normalized key has length below 30 never sources a
report excerpt: every added, removed or modified excerpt comes from a source
block whose normalized key has length at least 30. -/
theorem C4_boilerplate_never_reported (old_items new_items : List Block) (t : ℚ) :
    (∀ e ∈ (find_significant_changes old_items new_items t).added,
      ∃ b ∈ new_items, e = mkExcerpt b.tag b.text ∧
        30 ≤ (normalize_text b.text).length) ∧
    (∀ e ∈ (find_significant_changes old_items new_items t).removed,
      ∃ b ∈ old_items, e = mkExcerpt b.tag b.text ∧
        30 ≤ (normalize_text b.text).length) ∧
    (∀ m ∈ (find_significant_changes old_items new_items t).modified,
      (∃ b ∈ old_items, m.old = mkExcerpt b.tag b.text ∧
        30 ≤ (normalize_text b.text).length) ∧
      (∃ b ∈ new_items, m.new = mkExcerpt b.tag b.text ∧
        30 ≤ (normalize_text b.text).length)) :=
  ⟨fun _ he => report_added_src he, fun _ he => report_removed_src he,
    fun _ hm => report_modified_src hm⟩

/-- C4 witness: the single added excerpt of a concrete run sources a block of
normalized-key length at least 30. -/
theorem C4_witness :
    ∃ b ∈ [Block.mk ("p") ("abcdefghijklmnopqrstuvwxyz abcdefghijklmnopqrstuvwxyz")],
      mkExcerpt ("p") ("abcdefghijklmnopqrstuvwxyz abcdefghijklmnopqrstuvwxyz") =
        mkExcerpt b.tag b.text ∧ 30 ≤ (normalize_text b.text).length :=
  (C4_boilerplate_never_reported []
    [Block.mk ("p") ("abcdefghijklmnopqrstuvwxyz abcdefghijklmnopqrstuvwxyz")]
    (mkRat 7 10)).1
    (mkExcerpt ("p") ("abcdefghijklmnopqrstuvwxyz abcdefghijklmnopqrstuvwxyz"))
    (by decide)

/-- C7: every excerpt appearing anywhere in the report sources a block of the
input lists, and shows that block's original text: whenever the original text
exceeds 150 characters, the excerpt carries exactly its first 150 characters
followed by the ellipsis marker, and otherwise it carries the full original
text with no marker. -/
theorem C7_excerpt_truncation (old_items new_items : List Block) (t : ℚ)
    (e : String)
    (he : e ∈ (find_significant_changes old_items new_items t).added ∨
      e ∈ (find_significant_changes old_items new_items t).removed ∨
      ∃ m ∈ (find_significant_changes old_items new_items t).modified,
        e = m.old ∨ e = m.new) :
    ∃ b : Block, (b ∈ old_items ∨ b ∈ new_items) ∧
      e = mkExcerpt b.tag b.text ∧
      (150 < b.text.length →
        e = "<strong>" ++ pyUpper b.tag ++ "</strong>: " ++
          (takeChars 150 b.text ++ "...")) ∧
      (b.text.length ≤ 150 →
        e = "<strong>" ++ pyUpper b.tag ++ "</strong>: " ++ b.text) := by
  have hsplit : ∃ b : Block, (b ∈ old_items ∨ b ∈ new_items) ∧
      e = mkExcerpt b.tag b.text := by
    rcases he with he | he | ⟨m, hm, hcase⟩
    · obtain ⟨b, hb, heq, _⟩ := report_added_src he
      exact ⟨b, Or.inr hb, heq⟩
    · obtain ⟨b, hb, heq, _⟩ := report_removed_src he
      exact ⟨b, Or.inl hb, heq⟩
    · obtain ⟨⟨ob, hob, hoeq, _⟩, ⟨nb, hnb, hneq, _⟩⟩ := report_modified_src hm
      rcases hcase with rfl | rfl
      · exact ⟨ob, Or.inl hob, hoeq⟩
      · exact ⟨nb, Or.inr hnb, hneq⟩
  obtain ⟨b, hb, rfl⟩ := hsplit
  refine ⟨b, hb, rfl, ?_, ?_⟩
  · intro hlen
    unfold mkExcerpt
    rw [if_pos hlen]
  · intro hlen
    unfold mkExcerpt
    rw [if_neg (Nat.not_lt.mpr hlen)]

set_option maxRecDepth 4000 in
/-- C7 witness: the added excerpt of a 160-character block sources that block
and is its first 150 original characters plus the ellipsis marker. -/
theorem C7_witness :
    ∃ b : Block,
      (b ∈ ([] : List Block) ∨
        b ∈ [Block.mk ("p") ("aaaaaaaaaaaaaaaaaaaaaaaaaaaaaaaaaaaaaaaaaaaaaaaaaaaaaaaaaaaaaaaaaaaaaaaaaaaaaaaaaaaaaaaaaaaaaaaaaaaaaaaaaaaaaaaaaaaaaaaaaaaaaaaaaaaaaaaaaaaaaaaaaaaaaaaaaaaaaaaa")]) ∧
      mkExcerpt ("p") ("aaaaaaaaaaaaaaaaaaaaaaaaaaaaaaaaaaaaaaaaaaaaaaaaaaaaaaaaaaaaaaaaaaaaaaaaaaaaaaaaaaaaaaaaaaaaaaaaaaaaaaaaaaaaaaaaaaaaaaaaaaaaaaaaaaaaaaaaaaaaaaaaaaaaaaaaaaaaaaaa")
        = mkExcerpt b.tag b.text ∧
      (150 < b.text.length →
        mkExcerpt ("p") ("aaaaaaaaaaaaaaaaaaaaaaaaaaaaaaaaaaaaaaaaaaaaaaaaaaaaaaaaaaaaaaaaaaaaaaaaaaaaaaaaaaaaaaaaaaaaaaaaaaaaaaaaaaaaaaaaaaaaaaaaaaaaaaaaaaaaaaaaaaaaaaaaaaaaaaaaaaaaaaaa")
          = "<strong>" ++ pyUpper b.tag ++ "</strong>: " ++
            (takeChars 150 b.text ++ "...")) ∧
      (b.text.length ≤ 150 →
        mkExcerpt ("p") ("aaaaaaaaaaaaaaaaaaaaaaaaaaaaaaaaaaaaaaaaaaaaaaaaaaaaaaaaaaaaaaaaaaaaaaaaaaaaaaaaaaaaaaaaaaaaaaaaaaaaaaaaaaaaaaaaaaaaaaaaaaaaaaaaaaaaaaaaaaaaaaaaaaaaaaaaaaaaaaaa")
          = "<strong>" ++ pyUpper b.tag ++ "</strong>: " ++ b.text) :=
  C7_excerpt_truncation []
    [Block.mk ("p") ("aaaaaaaaaaaaaaaaaaaaaaaaaaaaaaaaaaaaaaaaaaaaaaaaaaaaaaaaaaaaaaaaaaaaaaaaaaaaaaaaaaaaaaaaaaaaaaaaaaaaaaaaaaaaaaaaaaaaaaaaaaaaaaaaaaaaaaaaaaaaaaaaaaaaaaaaaaaaaaaa")]
    (mkRat 7 10)
    (mkExcerpt ("p") ("aaaaaaaaaaaaaaaaaaaaaaaaaaaaaaaaaaaaaaaaaaaaaaaaaaaaaaaaaaaaaaaaaaaaaaaaaaaaaaaaaaaaaaaaaaaaaaaaaaaaaaaaaaaaaaaaaaaaaaaaaaaaaaaaaaaaaaaaaaaaaaaaaaaaaaaaaaaaaaaa"))
    (Or.inl (by decide))

/-- C3: a key present only on the new side with length above 50 contributes
every one of its blocks to `added`, and every added excerpt arises this way;
symmetrically for `removed` on the old side.  In particular keys of length at
most 50 that are absent from the other side contribute nothing. -/
theorem C3_added_removed_threshold (old_items new_items : List Block) (t : ℚ) :
    (∀ k bs, (k, bs) ∈ buildNormalizedMap new_items →
      k ∉ mapKeys (buildNormalizedMap old_items) → 50 < k.length →
      ∀ b ∈ bs, mkExcerpt b.tag b.text ∈
        (find_significant_changes old_items new_items t).added) ∧
    (∀ e ∈ (find_significant_changes old_items new_items t).added,
      ∃ k bs, (k, bs) ∈ buildNormalizedMap new_items ∧
        k ∉ mapKeys (buildNormalizedMap old_items) ∧ 50 < k.length ∧
        ∃ b ∈ bs, e = mkExcerpt b.tag b.text) ∧
    (∀ k bs, (k, bs) ∈ buildNormalizedMap old_items →
      k ∉ mapKeys (buildNormalizedMap new_items) → 50 < k.length →
      ∀ b ∈ bs, mkExcerpt b.tag b.text ∈
        (find_significant_changes old_items new_items t).removed) ∧
    (∀ e ∈ (find_significant_changes old_items new_items t).removed,
      ∃ k bs, (k, bs) ∈ buildNormalizedMap old_items ∧
        k ∉ mapKeys (buildNormalizedMap new_items) ∧ 50 < k.length ∧
        ∃ b ∈ bs, e = mkExcerpt b.tag b.text) := by
  have hforward : ∀ (om nmap : List (String × List Block)) (k : String)
      (bs : List Block), (k, bs) ∈ nmap → k ∉ mapKeys om → 50 < k.length →
      ∀ b ∈ bs, mkExcerpt b.tag b.text ∈ nmap.flatMap (fun p =>
        if !((mapKeys om).contains p.1) && decide (50 < p.1.length) then
          p.2.map (fun b => mkExcerpt b.tag b.text)
        else []) := by
    intro om nmap k bs hmem hout hlen b hb
    refine List.mem_flatMap.mpr ⟨(k, bs), hmem, ?_⟩
    have hcont : ((mapKeys om).contains k) = false := by
      cases hcc : (mapKeys om).contains k with
      | false => rfl
      | true => exact absurd (contains_iff.mp hcc) hout
    have hcond : (!((mapKeys om).contains k) && decide (50 < k.length)) = true := by
      rw [hcont]
      simp [hlen]
    rw [if_pos hcond]
    exact List.mem_map.mpr ⟨b, hb, rfl⟩
  have hbackward : ∀ (om nmap : List (String × List Block)) (e : String),
      e ∈ nmap.flatMap (fun p =>
        if !((mapKeys om).contains p.1) && decide (50 < p.1.length) then
          p.2.map (fun b => mkExcerpt b.tag b.text)
        else []) →
      ∃ k bs, (k, bs) ∈ nmap ∧ k ∉ mapKeys om ∧ 50 < k.length ∧
        ∃ b ∈ bs, e = mkExcerpt b.tag b.text := by
    intro om nmap e he
    obtain ⟨p, hp, he2⟩ := List.mem_flatMap.mp he
    by_cases hc : (!((mapKeys om).contains p.1) && decide (50 < p.1.length)) = true
    · rw [if_pos hc] at he2
      obtain ⟨b, hb, hbe⟩ := List.mem_map.mp he2
      simp only [Bool.and_eq_true, Bool.not_eq_true', decide_eq_true_eq] at hc
      refine ⟨p.1, p.2, by simpa using hp, ?_, hc.2, b, hb, hbe.symm⟩
      intro hmem
      rw [contains_iff.mpr hmem] at hc
      exact absurd hc.1 (by simp)
    · rw [if_neg hc] at he2
      exact absurd he2 (List.not_mem_nil e)
  refine ⟨?_, ?_, ?_, ?_⟩
  · intro k bs hmem hout hlen b hb
    rw [fsc_added_eq]
    exact hforward _ _ k bs hmem hout hlen b hb
  · intro e he
    rw [fsc_added_eq] at he
    exact hbackward _ _ e he
  · intro k bs hmem hout hlen b hb
    rw [fsc_removed_eq]
    exact hforward _ _ k bs hmem hout hlen b hb
  · intro e he
    rw [fsc_removed_eq] at he
    exact hbackward _ _ e he

/-- C3 witness: a new-side-only key of length 52 puts its block's excerpt in
`added` on a concrete run. -/
theorem C3_witness :
    mkExcerpt ("p") ("abcdefghijklmnopqrstuvwxyz abcdefghijklmnopqrstuvwxyz") ∈
      (find_significant_changes []
        [Block.mk ("p") ("abcdefghijklmnopqrstuvwxyz abcdefghijklmnopqrstuvwxyz")]
        (mkRat 7 10)).added :=
  (C3_added_removed_threshold []
    [Block.mk ("p") ("abcdefghijklmnopqrstuvwxyz abcdefghijklmnopqrstuvwxyz")]
    (mkRat 7 10)).1
    ("abcdefghijklmnopqrstuvwxyzabcdefghijklmnopqrstuvwxyz")
    [Block.mk ("p") ("abcdefghijklmnopqrstuvwxyz abcdefghijklmnopqrstuvwxyz")]
    (by decide) (by decide) (by decide)
    (Block.mk ("p") ("abcdefghijklmnopqrstuvwxyz abcdefghijklmnopqrstuvwxyz"))
    (by decide)

lemma bmStep_inv {new_norm : String} {ks : List String} {st : Option String × ℚ}
    (h : BMInv new_norm ks st) (k : String) :
    BMInv new_norm (ks ++ [k]) (bmStep new_norm st k) := by
  obtain ⟨h1, h2⟩ := h
  unfold bmStep
  by_cases hOK : lengthRatioOK new_norm k = true
  · rw [if_pos hOK]
    by_cases hcond : st.2 < sm_ratio new_norm k ∧ mkRat 3 4 < sm_ratio new_norm k
    · rw [if_pos hcond]
      constructor
      · intro k0 hk0
        have hk0' : k = k0 := by simpa using hk0
        subst hk0'
        exact ⟨List.mem_append_right _ (List.mem_singleton.mpr rfl), hOK, rfl,
          hcond.2⟩
      · intro k' hk' hOK'
        rcases List.mem_append.mp hk' with hk' | hk'
        · rcases h2 k' hk' hOK' with hle | hle
          · exact Or.inl (le_trans hle (le_of_lt hcond.1))
          · exact Or.inr hle
        · simp only [List.mem_singleton] at hk'
          subst hk'
          exact Or.inl (le_refl _)
    · rw [if_neg hcond]
      constructor
      · intro k0 hk0
        obtain ⟨hm, hrest⟩ := h1 k0 hk0
        exact ⟨List.mem_append_left _ hm, hrest⟩
      · intro k' hk' hOK'
        rcases List.mem_append.mp hk' with hk' | hk'
        · exact h2 k' hk' hOK'
        · simp only [List.mem_singleton] at hk'
          subst hk'
          rcases not_and_or.mp hcond with hna | hnb
          · exact Or.inl (le_of_not_lt hna)
          · exact Or.inr (le_of_not_lt hnb)
  · rw [if_neg hOK]
    constructor
    · intro k0 hk0
      obtain ⟨hm, hrest⟩ := h1 k0 hk0
      exact ⟨List.mem_append_left _ hm, hrest⟩
    · intro k' hk' hOK'
      rcases List.mem_append.mp hk' with hk' | hk'
      · exact h2 k' hk' hOK'
      · simp only [List.mem_singleton] at hk'
        subst hk'
        exact absurd hOK' hOK

lemma bestMatch_inv_aux (new_norm : String) :
    ∀ (rest done : List String) (st : Option String × ℚ),
      BMInv new_norm done st →
      BMInv new_norm (done ++ rest) (rest.foldl (bmStep new_norm) st) := by
  intro rest
  induction rest with
  | nil =>
    intro done st h
    simpa using h
  | cons k ks ih =>
    intro done st h
    rw [List.foldl_cons]
    have h3 := ih (done ++ [k]) (bmStep new_norm st k) (bmStep_inv h k)
    rw [List.append_assoc] at h3
    simpa using h3

lemma bestMatch_inv (new_norm : String) (old_norms : List String) :
    BMInv new_norm old_norms (bestMatch new_norm old_norms) := by
  have h0 : BMInv new_norm [] ((none : Option String), (0 : ℚ)) := by
    constructor
    · intro k hk
      simp at hk
    · intro k' hk'
      simp at hk'
  have h := bestMatch_inv_aux new_norm old_norms [] (none, 0) h0
  simpa [bestMatch] using h

/-- C1: for a new-side-only key, a best fuzzy match is accepted only if the
chosen old key passed the length-ratio pre-filter `min/max >= 0.75`, carries
the maximal similarity among all filter-passing old keys, and its similarity
lies strictly between 0.75 and 0.9; when there is no such accepted best match,
no modified entry is produced for that new key. -/
theorem C1_modified_acceptance (old_items new_items : List Block) (t : ℚ)
    (new_norm : String)
    (hmem : new_norm ∈ mapKeys (buildNormalizedMap new_items))
    (huniq : new_norm ∉ mapKeys (buildNormalizedMap old_items)) :
    (∀ k s, bestMatch new_norm (mapKeys (buildNormalizedMap old_items)) =
        (some k, s) →
      k ∈ mapKeys (buildNormalizedMap old_items) ∧
      lengthRatioOK new_norm k = true ∧
      (3 : ℚ) / 4 ≤ ((min new_norm.length k.length : ℕ) : ℚ) /
        ((max new_norm.length k.length : ℕ) : ℚ) ∧
      s = sm_ratio new_norm k ∧ mkRat 3 4 < s ∧
      ∀ k' ∈ mapKeys (buildNormalizedMap old_items),
        lengthRatioOK new_norm k' = true → sm_ratio new_norm k' ≤ s) ∧
    (modifiedForKey (buildNormalizedMap old_items) (buildNormalizedMap new_items)
        new_norm (mapKeys (buildNormalizedMap old_items)) ≠ [] →
      ∃ k s, bestMatch new_norm (mapKeys (buildNormalizedMap old_items)) =
          (some k, s) ∧ mkRat 3 4 < s ∧ s < mkRat 9 10) := by
  constructor
  · intro k s heq
    have hinv := bestMatch_inv new_norm (mapKeys (buildNormalizedMap old_items))
    rw [heq] at hinv
    obtain ⟨h1, h2⟩ := hinv
    obtain ⟨hkmem, hOK, hsim, hgt⟩ := h1 k rfl
    refine ⟨hkmem, hOK, ?_, hsim, hgt, ?_⟩
    · have hnat : 3 * max new_norm.length k.length ≤
          4 * min new_norm.length k.length := of_decide_eq_true hOK
      have h30 : 30 ≤ new_norm.length := mapKeys_length hmem
      have hmaxpos : (0 : ℚ) < ((max new_norm.length k.length : ℕ) : ℚ) := by
        have hp : 0 < max new_norm.length k.length :=
          lt_of_lt_of_le (by norm_num) (le_trans h30 (le_max_left _ _))
        exact_mod_cast hp
      have hq : (3 : ℚ) * ((max new_norm.length k.length : ℕ) : ℚ) ≤
          4 * ((min new_norm.length k.length : ℕ) : ℚ) := by
        exact_mod_cast hnat
      rw [div_le_div_iff₀ (by norm_num) hmaxpos]
      linarith
    · intro k' hk' hOK'
      rcases h2 k' hk' hOK' with h | h
      · exact h
      · exact le_trans h (le_of_lt hgt)
  · intro hne
    by_cases hc : (bestMatch new_norm
        (mapKeys (buildNormalizedMap old_items))).1.getD "" ≠ "" ∧
        mkRat 3 4 < (bestMatch new_norm (mapKeys (buildNormalizedMap old_items))).2 ∧
        (bestMatch new_norm (mapKeys (buildNormalizedMap old_items))).2 < mkRat 9 10
    · obtain ⟨hne2, hgt, hlt⟩ := hc
      cases hbm : (bestMatch new_norm (mapKeys (buildNormalizedMap old_items))).1 with
      | none =>
        rw [hbm] at hne2
        simp at hne2
      | some k =>
        refine ⟨k, (bestMatch new_norm (mapKeys (buildNormalizedMap old_items))).2,
          ?_, hgt, hlt⟩
        rw [← hbm]
    · exfalso
      apply hne
      unfold modifiedForKey
      rw [if_neg hc]

set_option maxRecDepth 4000 in
/-- C1 witness: a concrete pair of one-block sides where both keys survive the
filters and the conclusion of the acceptance theorem holds. -/
theorem C1_witness :
    ("aaaaaaaaaaaaaaaaaaaaaaaaaaaawxyz") ∈
      mapKeys (buildNormalizedMap [Block.mk ("p") ("aaaaaaaaaaaaaaaaaaaaaaaaaaaawxyz")]) ∧
    ("aaaaaaaaaaaaaaaaaaaaaaaaaaaawxyz") ∉
      mapKeys (buildNormalizedMap [Block.mk ("p") ("aaaaaaaaaaaaaaaaaaaaaaaaaaaapqrs")]) ∧
    ((∀ k s, bestMatch ("aaaaaaaaaaaaaaaaaaaaaaaaaaaawxyz")
        (mapKeys (buildNormalizedMap [Block.mk ("p") ("aaaaaaaaaaaaaaaaaaaaaaaaaaaapqrs")])) =
        (some k, s) →
      k ∈ mapKeys (buildNormalizedMap [Block.mk ("p") ("aaaaaaaaaaaaaaaaaaaaaaaaaaaapqrs")]) ∧
      lengthRatioOK ("aaaaaaaaaaaaaaaaaaaaaaaaaaaawxyz") k = true ∧
      (3 : ℚ) / 4 ≤ ((min ("aaaaaaaaaaaaaaaaaaaaaaaaaaaawxyz").length k.length : ℕ) : ℚ) /
        ((max ("aaaaaaaaaaaaaaaaaaaaaaaaaaaawxyz").length k.length : ℕ) : ℚ) ∧
      s = sm_ratio ("aaaaaaaaaaaaaaaaaaaaaaaaaaaawxyz") k ∧ mkRat 3 4 < s ∧
      ∀ k' ∈ mapKeys (buildNormalizedMap [Block.mk ("p") ("aaaaaaaaaaaaaaaaaaaaaaaaaaaapqrs")]),
        lengthRatioOK ("aaaaaaaaaaaaaaaaaaaaaaaaaaaawxyz") k' = true →
          sm_ratio ("aaaaaaaaaaaaaaaaaaaaaaaaaaaawxyz") k' ≤ s) ∧
    (modifiedForKey (buildNormalizedMap [Block.mk ("p") ("aaaaaaaaaaaaaaaaaaaaaaaaaaaapqrs")])
        (buildNormalizedMap [Block.mk ("p") ("aaaaaaaaaaaaaaaaaaaaaaaaaaaawxyz")])
        ("aaaaaaaaaaaaaaaaaaaaaaaaaaaawxyz")
        (mapKeys (buildNormalizedMap [Block.mk ("p") ("aaaaaaaaaaaaaaaaaaaaaaaaaaaapqrs")])) ≠ [] →
      ∃ k s, bestMatch ("aaaaaaaaaaaaaaaaaaaaaaaaaaaawxyz")
          (mapKeys (buildNormalizedMap [Block.mk ("p") ("aaaaaaaaaaaaaaaaaaaaaaaaaaaapqrs")])) =
          (some k, s) ∧ mkRat 3 4 < s ∧ s < mkRat 9 10)) :=
  ⟨by decide, by decide,
    C1_modified_acceptance [Block.mk ("p") ("aaaaaaaaaaaaaaaaaaaaaaaaaaaapqrs")]
      [Block.mk ("p") ("aaaaaaaaaaaaaaaaaaaaaaaaaaaawxyz")] (mkRat 7 10)
      ("aaaaaaaaaaaaaaaaaaaaaaaaaaaawxyz") (by decide) (by decide)⟩

lemma card_symmDiff_eq (s u : Finset String) :
    (symmDiff s u).card = (s \ u).card + (u \ s).card := by
  rw [symmDiff_def, Finset.sup_eq_union]
  exact Finset.card_union_of_disjoint disjoint_sdiff_sdiff

lemma secondaryOK_eq_spec (a b : String) :
    secondaryOK a b = specWordChangeCheck a b := by
  simp only [secondaryOK, specWordChangeCheck]
  congr 1
  · simp only [decide_eq_decide]
    rw [card_symmDiff_eq]
  · simp only [decide_eq_decide]
    rw [Int.abs_eq_natAbs]
    constructor
    · intro h
      exact_mod_cast h
    · intro h
      exact_mod_cast h

lemma flatMap_secondary_filter (nb : Block) (olds : List Block) :
    olds.flatMap (fun ob =>
        if secondaryOK nb.text ob.text = true then
          [ModEntry.mk (mkExcerpt ob.tag ob.text) (mkExcerpt nb.tag nb.text)]
        else []) =
      (olds.filter (fun ob => specWordChangeCheck nb.text ob.text)).map
        (fun ob => ModEntry.mk (mkExcerpt ob.tag ob.text)
          (mkExcerpt nb.tag nb.text)) := by
  induction olds with
  | nil => rfl
  | cons ob rest ih =>
    rw [List.flatMap_cons, List.filter_cons, secondaryOK_eq_spec]
    by_cases h : specWordChangeCheck nb.text ob.text = true
    · simp only [h, if_true, if_pos h, List.map_cons]
      rw [ih]
      rfl
    · have hf : specWordChangeCheck nb.text ob.text = false :=
        Bool.eq_false_iff.mpr h
      simp only [hf, Bool.false_eq_true, if_false]
      rw [ih]
      rfl

/-- C2: once a fuzzy best match between two keys is accepted, a modified entry
is emitted for exactly those (new-block, old-block) pairs whose original texts
differ in at least 5 case-folded words (cardinality of the symmetric
difference of the word sets) and by more than 50 characters in length. -/
theorem C2_secondary_verification
    (old_normalized_map new_normalized_map : List (String × List Block))
    (new_norm k : String) (s : ℚ) (old_norms : List String)
    (hbm : bestMatch new_norm old_norms = (some k, s))
    (hk : k ≠ "") (h1 : mkRat 3 4 < s) (h2 : s < mkRat 9 10) :
    modifiedForKey old_normalized_map new_normalized_map new_norm old_norms =
      ((new_normalized_map.lookup new_norm).getD []).flatMap (fun nb =>
        (((old_normalized_map.lookup k).getD []).filter
            (fun ob => specWordChangeCheck nb.text ob.text)).map
          (fun ob => ModEntry.mk (mkExcerpt ob.tag ob.text)
            (mkExcerpt nb.tag nb.text))) := by
  unfold modifiedForKey
  rw [hbm]
  rw [if_pos (show ((some k, s).1.getD "" ≠ "") ∧ mkRat 3 4 < (some k, s).2 ∧
      (some k, s).2 < mkRat 9 10 from ⟨hk, h1, h2⟩)]
  have hfun : (fun nb : Block =>
      ((old_normalized_map.lookup ((some k, s).1.getD "")).getD []).flatMap
        (fun ob => if secondaryOK nb.text ob.text = true then
          [ModEntry.mk (mkExcerpt ob.tag ob.text) (mkExcerpt nb.tag nb.text)]
        else [])) =
      fun nb : Block =>
        (((old_normalized_map.lookup k).getD []).filter
            (fun ob => specWordChangeCheck nb.text ob.text)).map
          (fun ob => ModEntry.mk (mkExcerpt ob.tag ob.text)
            (mkExcerpt nb.tag nb.text)) :=
    funext fun nb => flatMap_secondary_filter nb _
  rw [hfun]

set_option maxRecDepth 4000 in
/-- C2 witness: a concrete accepted pair (similarity 7/8) where the emitted
modified entries are exactly the pairs passing the spec-side word-and-length
check. -/
theorem C2_witness :
    bestMatch ("aaaaaaaaaaaaaaaaaaaaaaaaaaaawxyz")
      [("aaaaaaaaaaaaaaaaaaaaaaaaaaaapqrs")] =
      (some ("aaaaaaaaaaaaaaaaaaaaaaaaaaaapqrs"), mkRat 7 8) ∧
    ("aaaaaaaaaaaaaaaaaaaaaaaaaaaapqrs" : String) ≠ "" ∧
    mkRat 3 4 < mkRat 7 8 ∧ mkRat 7 8 < mkRat 9 10 ∧
    modifiedForKey
        [(("aaaaaaaaaaaaaaaaaaaaaaaaaaaapqrs"),
          [Block.mk ("p") ("aaaaaaaaaaaaaaaaaaaaaaaaaaaapqrs")])]
        [(("aaaaaaaaaaaaaaaaaaaaaaaaaaaawxyz"),
          [Block.mk ("p") ("aaaaaaaaaaaaaaaaaaaaaaaaaaaawxyz")])]
        ("aaaaaaaaaaaaaaaaaaaaaaaaaaaawxyz")
        [("aaaaaaaaaaaaaaaaaaaaaaaaaaaapqrs")] =
      (([(("aaaaaaaaaaaaaaaaaaaaaaaaaaaawxyz"),
          [Block.mk ("p") ("aaaaaaaaaaaaaaaaaaaaaaaaaaaawxyz")])].lookup
            ("aaaaaaaaaaaaaaaaaaaaaaaaaaaawxyz")).getD []).flatMap (fun nb =>
        ((([(("aaaaaaaaaaaaaaaaaaaaaaaaaaaapqrs"),
            [Block.mk ("p") ("aaaaaaaaaaaaaaaaaaaaaaaaaaaapqrs")])].lookup
              ("aaaaaaaaaaaaaaaaaaaaaaaaaaaapqrs")).getD []).filter
            (fun ob => specWordChangeCheck nb.text ob.text)).map
          (fun ob => ModEntry.mk (mkExcerpt ob.tag ob.text)
            (mkExcerpt nb.tag nb.text))) :=
  ⟨by decide, by decide, by decide, by decide,
    C2_secondary_verification
      [(("aaaaaaaaaaaaaaaaaaaaaaaaaaaapqrs"),
        [Block.mk ("p") ("aaaaaaaaaaaaaaaaaaaaaaaaaaaapqrs")])]
      [(("aaaaaaaaaaaaaaaaaaaaaaaaaaaawxyz"),
        [Block.mk ("p") ("aaaaaaaaaaaaaaaaaaaaaaaaaaaawxyz")])]
      ("aaaaaaaaaaaaaaaaaaaaaaaaaaaawxyz")
      ("aaaaaaaaaaaaaaaaaaaaaaaaaaaapqrs") (mkRat 7 8)
      [("aaaaaaaaaaaaaaaaaaaaaaaaaaaapqrs")]
      (by decide) (by decide) (by decide) (by decide)⟩

set_option maxRecDepth 4000 in
/-- C5 counterexample: on the scenario-3 inputs the set-based Matcher does not
return 1 modified, 0 added and 0 removed; the secondary length check fails
(the length difference is 13, not above 50) while both keys are unique and
longer than 50, so the run lands in added and removed instead. -/
theorem C5_counterexample :
    ¬ ((find_significant_changes
        [Block.mk ("p") ("The quick brown fox jumps over the lazy dog near the river bank today.")]
        [Block.mk ("p") ("The quick brown fox jumps over the lazy dog near the riverbank yesterday afternoon.")]
        (mkRat 7 10)).modified.length = 1 ∧
      (find_significant_changes
        [Block.mk ("p") ("The quick brown fox jumps over the lazy dog near the river bank today.")]
        [Block.mk ("p") ("The quick brown fox jumps over the lazy dog near the riverbank yesterday afternoon.")]
        (mkRat 7 10)).added.length = 0 ∧
      (find_significant_changes
        [Block.mk ("p") ("The quick brown fox jumps over the lazy dog near the river bank today.")]
        [Block.mk ("p") ("The quick brown fox jumps over the lazy dog near the riverbank yesterday afternoon.")]
        (mkRat 7 10)).removed.length = 0) := by decide

set_option maxRecDepth 4000 in
/-- C5 amended: on the scenario-3 inputs the Matcher returns exactly 1 added
entry, 1 removed entry and 0 modified entries. -/
theorem C5_amended_scenario :
    (find_significant_changes
        [Block.mk ("p") ("The quick brown fox jumps over the lazy dog near the river bank today.")]
        [Block.mk ("p") ("The quick brown fox jumps over the lazy dog near the riverbank yesterday afternoon.")]
        (mkRat 7 10)).added.length = 1 ∧
    (find_significant_changes
        [Block.mk ("p") ("The quick brown fox jumps over the lazy dog near the river bank today.")]
        [Block.mk ("p") ("The quick brown fox jumps over the lazy dog near the riverbank yesterday afternoon.")]
        (mkRat 7 10)).removed.length = 1 ∧
    (find_significant_changes
        [Block.mk ("p") ("The quick brown fox jumps over the lazy dog near the river bank today.")]
        [Block.mk ("p") ("The quick brown fox jumps over the lazy dog near the riverbank yesterday afternoon.")]
        (mkRat 7 10)).modified.length = 0 := by decide

/-- C8 counterexample: a paragraph of eleven underscores has no letters, yet
the Extractor keeps it, because the regex class `[\d\W]` excludes the
underscore (a word character that is not a digit). -/
theorem C8_counterexample :
    extract_meaningful_text [Block.mk ("p") ("___________")] =
      [Block.mk ("p") ("___________")] ∧
    ¬ ∀ b ∈ extract_meaningful_text [Block.mk ("p") ("___________")],
        ∃ c ∈ b.text.data, c.isAlpha = true := by decide

/-- C8 amended: the Extractor never returns a block whose trimmed text has
length at most 10, every returned block's text contains a letter or an
underscore, and a tag whose text is "12345 !!! ---" is never extracted. -/
theorem C8_extractor_filter (candidates : List Block) (b : Block)
    (hb : b ∈ extract_meaningful_text candidates) :
    10 < b.text.length ∧ (∃ c ∈ b.text.data, c.isAlpha = true ∨ c = '_') ∧
      b.text ≠ "12345 !!! ---" := by
  unfold extract_meaningful_text at hb
  obtain ⟨cand, _, hb2⟩ := List.mem_flatMap.mp hb
  by_cases hc : (decide (10 < (stripText cand.text).length) &&
      !onlyDigitsNonWord (stripText cand.text)) = true
  · rw [if_pos hc] at hb2
    simp only [List.mem_singleton] at hb2
    subst hb2
    simp only [Bool.and_eq_true, decide_eq_true_eq, Bool.not_eq_true'] at hc
    obtain ⟨h10, honly⟩ := hc
    refine ⟨h10, ?_, ?_⟩
    · unfold onlyDigitsNonWord at honly
      cases hae : (stripText cand.text).data.all
          (fun c => isDigitChar c || !isWordChar c) with
      | true =>
        exfalso
        rw [hae, Bool.and_true] at honly
        have hemp : (stripText cand.text).data.isEmpty = true := by
          cases he : (stripText cand.text).data.isEmpty with
          | true => rfl
          | false => rw [he] at honly; exact Bool.noConfusion honly
        have hnil : (stripText cand.text).data = [] :=
          List.isEmpty_iff.mp hemp
        have hlen : (stripText cand.text).length = 0 := by
          rw [String.length, hnil]
          rfl
        rw [hlen] at h10
        exact absurd h10 (by norm_num)
      | false =>
        have hnall : ¬ ∀ c ∈ (stripText cand.text).data,
            (isDigitChar c || !isWordChar c) = true := by
          intro hall
          rw [List.all_eq_true.mpr hall] at hae
          exact Bool.noConfusion hae
        push_neg at hnall
        obtain ⟨c, hcm, hcf⟩ := hnall
        have hcf2 : (isDigitChar c || !isWordChar c) = false :=
          Bool.eq_false_iff.mpr hcf
        obtain ⟨hd, hw⟩ := Bool.or_eq_false_iff.mp hcf2
        have hw2 : (c.isAlphanum || (c == '_')) = true := by
          have hw3 : isWordChar c = true := by simpa using hw
          exact hw3
        refine ⟨c, hcm, ?_⟩
        rcases Bool.or_eq_true_iff.mp hw2 with ha | hu
        · have ha2 : (c.isAlpha || c.isDigit) = true := ha
          rcases Bool.or_eq_true_iff.mp ha2 with ha' | hd'
          · exact Or.inl ha'
          · have hd2 : c.isDigit = false := hd
            rw [hd'] at hd2
            exact Bool.noConfusion hd2
        · exact Or.inr (by simpa using hu)
    · intro heq
      have heq' : stripText cand.text = "12345 !!! ---" := heq
      rw [heq'] at honly
      exact Bool.noConfusion
        ((by decide : onlyDigitsNonWord ("12345 !!! ---") = true).symm.trans honly)
  · rw [if_neg hc] at hb2
    exact absurd hb2 (List.not_mem_nil b)

/-- C8 witness: a plain sentence passes the Extractor and satisfies the
amended filter properties. -/
theorem C8_witness :
    10 < ("hello world this is fine" : String).length ∧
    (∃ c ∈ ("hello world this is fine" : String).data,
      c.isAlpha = true ∨ c = '_') ∧
    ("hello world this is fine" : String) ≠ "12345 !!! ---" :=
  C8_extractor_filter [Block.mk ("p") ("  hello world this is fine  ")]
    (Block.mk ("p") ("hello world this is fine")) (by decide)

end StyleChecker
